import Mathlib

/-!
# Verification of the RiskAdjustment HCC pipeline

Shallow embedding of `src/RiskAdjustment.py`:

* `generate_hccs` — the HCC Resolver: merges diagnosis records against the
  unioned crosswalk, builds a recipient × CC boolean presence matrix, and
  applies the ordered hierarchy-suppression cascade
  (`merged.loc[merged[row.cc] == True, row.to_zero] = False`).
* `lineRules` / `extract_hierachy_rules` — the Hierarchy Rule Extractor's
  per-line pattern extraction and explosion into (to_zero, cc) rows.
* `format_crosswaks_icd9` / `format_crosswaks_icd10` — the Crosswalk
  Formatter, including the manual supplemental-entry injection for ICD-9
  files (and the `df_extra` variable that is only conditionally rebound).

DataFrames are embedded as explicit lists.  Cell values of the presence
matrix are `Option Bool`: `some b` is an ordinary boolean cell, `none` is
a NaN cell (pandas `.loc` column enlargement writes NaN into rows not
selected by the boolean mask).
-/

namespace RiskAdjustment

/-! ## Data model -/

/-- A calendar date (`claim_date` in the input DataFrame); only the year
component is ever read (`df['claim_date'].dt.year`). -/
structure Date where
  year : Int
  month : Nat
  day : Nat
deriving DecidableEq

/-- One row of the Resolver's input DataFrame `df`
(columns `recip_id`, `diag_code`, `version`, `claim_date`). -/
structure DiagRow where
  recip_id : String
  diag_code : String
  version : Nat
  claim_date : Date
deriving DecidableEq

/-- The Resolver's input DataFrame.  `yearCol` records whether a `year`
column is present on the frame: the caller passes `yearCol = none`;
`df['year'] = df['claim_date'].dt.year` (line 37) adds the column to this
very frame (in-place pandas column assignment). -/
structure DiagDF where
  rows : List DiagRow
  yearCol : Option (List Int) := none
deriving DecidableEq

/-- One row of a crosswalk table in the shape line 39's merge requires:
a `diag_code` key column next to `year`, `version` and `cc`.  The
Crosswalk Formatter does NOT produce this shape — it labels the code
column `icd` (see `CwRow` and `crosswalkCsvColumns` below), so the
by-name key lookup of the merge fails on the Formatter's files (see
`missingMergeKey`); `generate_hccs` is modeled over tables already
keyed as `diag_code`. -/
structure XwalkRow where
  diag_code : String
  year : Int
  version : Nat
  cc : Nat
deriving DecidableEq

/-- One row of a `<version>_rules.csv` hierarchy table
(columns `to_zero`, `cc`); `cc` is the trigger, `to_zero` the suppressed
condition category. -/
structure Rule where
  to_zero : Nat
  cc : Nat
deriving DecidableEq

/-- The recipient × CC presence matrix (`merged` after `unstack`/`reindex`).
`cols` is the shared column index (CC ids); each row is a recipient id with
its cell values, positionally aligned with `cols`.  `some b` is a boolean
cell; `none` is a NaN cell produced by `.loc` column enlargement. -/
structure CCMatrix where
  cols : List Nat
  rows : List (String × List (Option Bool))
deriving DecidableEq

/-! ## The HCC Resolver (`generate_hccs`) -/

/-- All `cc` values of crosswalk rows matching one diagnosis record on
`['diag_code', 'year', 'version']` (the left-merge keys, line 39; the
`year` key is the year derived from `claim_date`). -/
def matchesFor (r : DiagRow) (df_map : List XwalkRow) : List Nat :=
  (df_map.filter (fun x =>
      x.diag_code == r.diag_code && x.year == r.claim_date.year
        && x.version == r.version)).map (fun x => x.cc)

/-- The merged-and-filtered rows of lines 39–43: for each input record in
order, one `(recip_id, cc)` pair per matching crosswalk row (a left merge
produces one output row per match; rows with null `cc` — unmatched
records — are dropped by `merged[merged.cc.notnull()]`). -/
def mergedPairs (rows : List DiagRow) (df_map : List XwalkRow) :
    List (String × Nat) :=
  rows.flatMap (fun r => (matchesFor r df_map).map (fun c => (r.recip_id, c)))

/-- Code-point lexicographic order on character lists (Python string `<`,
the order `groupby(sort=True)` uses for the group keys). -/
def lexLt : List Char → List Char → Bool
  | [], [] => false
  | [], _ :: _ => true
  | _ :: _, [] => false
  | a :: as, b :: bs =>
      a.toNat < b.toNat || (a.toNat == b.toNat && lexLt as bs)

/-- Insert a string into a lexicographically sorted list. -/
def insertSorted (s : String) : List String → List String
  | [] => [s]
  | t :: ts => if lexLt s.toList t.toList then s :: t :: ts
               else t :: insertSorted s ts

/-- Sort a list of strings lexicographically (insertion sort). -/
def sortStrings (l : List String) : List String :=
  l.foldr insertSorted []

/-- Lines 47–49: `groupby(['recip_id','cc']).size().unstack(fill_value=0)
.reindex(df_list.cc, axis=1, fill_value=0).astype(bool)`.  Row index: the
distinct recipient ids of the merged pairs, sorted (groupby sorts keys);
column index: exactly `labels` (= `df_list.cc`); a cell is `some true` iff
the (recipient, cc) group is non-empty. -/
def buildMatrix (pairs : List (String × Nat)) (labels : List Nat) :
    CCMatrix :=
  { cols := labels,
    rows := (sortStrings (pairs.map Prod.fst).dedup).map (fun r =>
      (r, labels.map (fun c => some (pairs.contains (r, c))))) }

/-- Whether the mask `merged[row.cc] == True` selects a row, given the
positional index `it` of the trigger column (NaN compares unequal to
`True`, hence `none` is not triggered). -/
def triggeredAt (vs : List (Option Bool)) (it : Nat) : Bool :=
  vs.getD it none == some true

/-- The effect of line 54 on one row when `row.to_zero` is an existing
column at positional index `iz`: if the row is selected by the trigger
mask (column index `it`), its `to_zero` cell is overwritten with
`False`; otherwise the row is untouched. -/
def updRow (it iz : Nat) (p : String × List (Option Bool)) :
    String × List (Option Bool) :=
  if triggeredAt p.2 it then (p.1, p.2.set iz (some false)) else p

/-- The effect of line 54 on one row when `row.to_zero` is a new column:
`.loc` enlargement appends a cell holding `False` if the row is selected
by the trigger mask and NaN otherwise. -/
def extRow (it : Nat) (p : String × List (Option Bool)) :
    String × List (Option Bool) :=
  (p.1, p.2 ++ [if triggeredAt p.2 it then some false else none])

/-- Line 54 when `row.to_zero` is an existing column (positional index
`iz`): on every row selected by the trigger mask, the `to_zero` cell is
overwritten with `False`; all other rows and cells are untouched. -/
def setCase (m : CCMatrix) (it iz : Nat) : CCMatrix :=
  { cols := m.cols, rows := m.rows.map (updRow it iz) }

/-- Line 54 when `row.to_zero` is not an existing column: pandas `.loc`
enlargement appends a new column labelled `z`, holding `False` on the
rows selected by the trigger mask and NaN elsewhere. -/
def extendCase (m : CCMatrix) (it : Nat) (z : Nat) : CCMatrix :=
  { cols := m.cols ++ [z], rows := m.rows.map (extRow it) }

/-- One iteration of the hierarchy loop (line 54):
`merged.loc[merged[row.cc] == True, row.to_zero] = False`.
A missing trigger column raises a `KeyError`. -/
def applyRule (m : CCMatrix) (r : Rule) : Except String CCMatrix :=
  match m.cols.findIdx? (fun c => c == r.cc) with
  | none => .error "KeyError"
  | some it =>
    match m.cols.findIdx? (fun c => c == r.to_zero) with
    | some iz => .ok (setCase m it iz)
    | none => .ok (extendCase m it r.to_zero)

/-- The full hierarchy cascade (lines 53–54): apply the rule rows
sequentially, in their stored order. -/
def applyRules (m : CCMatrix) : List Rule → Except String CCMatrix
  | [] => .ok m
  | r :: rs =>
    match applyRule m r with
    | .error e => .error e
    | .ok m2 => applyRules m2 rs

/-- Line 37, `df['year'] = df['claim_date'].dt.year`: the input frame
with the derived `year` column added (an in-place pandas column
assignment on the caller's frame). -/
def withYear (df : DiagDF) : DiagDF :=
  { df with yearCol := some (df.rows.map (fun r => r.claim_date.year)) }

/-- The HCC Resolver `generate_hccs`, parameterized by the reference
tables its file reads produce: the per-file crosswalk tables
(`crosswalks`, one list per CSV matching the version — `pd.concat` on an
empty list raises), the hierarchy rule table `df_hier`, and the label
table's `cc` column `df_list`.  Returns the input frame as the caller
sees it after the call (the `year` column has been added to it) together
with the final matrix. -/
def generate_hccs (crosswalks : List (List XwalkRow)) (df_hier : List Rule)
    (df_list : List Nat) (df : DiagDF) :
    Except String (DiagDF × CCMatrix) :=
  if crosswalks.isEmpty then
    .error "ValueError: no objects to concatenate"
  else
    match applyRules
        (buildMatrix (mergedPairs (withYear df).rows crosswalks.flatten)
          df_list) df_hier with
    | .error e => .error e
    | .ok m2 => .ok (withYear df, m2)

/-- The raw cell value at row position `i`, column label `c` (`none` when
the column is missing, the row is out of range, or the cell is NaN). -/
def cellVal (m : CCMatrix) (i : Nat) (c : Nat) : Option Bool :=
  match m.cols.findIdx? (fun c' => c' == c), m.rows[i]? with
  | some j, some p => p.2.getD j none
  | _, _ => none

/-- The boolean value of the matrix cell at row position `i`, column
label `c` (`false` when the column is missing, the row is out of range,
or the cell is NaN or `False`). -/
def cellIsTrue (m : CCMatrix) (i : Nat) (c : Nat) : Bool :=
  cellVal m i c == some true

/-- Every row's value list is positionally aligned with the column index
(true of every matrix a pandas DataFrame can represent). -/
def Aligned (m : CCMatrix) : Prop :=
  ∀ p ∈ m.rows, p.2.length = m.cols.length

instance (m : CCMatrix) : Decidable (Aligned m) :=
  inferInstanceAs (Decidable (∀ p ∈ m.rows, p.2.length = m.cols.length))

/-- A rule that can no longer change the matrix: both of its columns are
present and the suppressed cell is already `False` on every row where the
trigger is true. -/
def RuleDone (m : CCMatrix) (r : Rule) : Prop :=
  (m.cols.findIdx? (fun c => c == r.cc)).isSome ∧
  (m.cols.findIdx? (fun c => c == r.to_zero)).isSome ∧
  ∀ i, cellIsTrue m i r.cc = true → cellVal m i r.to_zero = some false

instance {ε α : Type} [DecidableEq ε] [DecidableEq α] :
    DecidableEq (Except ε α) := fun a b =>
  match a, b with
  | .error x, .error y =>
      if h : x = y then .isTrue (by rw [h])
      else .isFalse (fun hc => h (Except.error.inj hc))
  | .error _, .ok _ => .isFalse (fun hc => Except.noConfusion hc)
  | .ok _, .error _ => .isFalse (fun hc => Except.noConfusion hc)
  | .ok x, .ok y =>
      if h : x = y then .isTrue (by rw [h])
      else .isFalse (fun hc => h (Except.ok.inj hc))

/-! ## Fixtures -/

/-- Crosswalk of the end-to-end scenario (spec §8): `(E11.9, 2020, 10,
CC1)`, `(I10, 2020, 10, CC3)`, plus the hypothetical direct CC2 mapping
`(E08, 2020, 10, CC2)` used by recipient R1 to exercise suppression —
keyed as `diag_code`, the shape line 39's merge requires (NOT the
`icd`-labelled shape the Formatter writes; see `crosswalkCsvColumns`). -/
def fixXwalk : List XwalkRow :=
  [⟨"E11.9", 2020, 10, 1⟩, ⟨"I10", 2020, 10, 3⟩, ⟨"E08", 2020, 10, 2⟩]

/-- Diagnosis records of the end-to-end scenario: R1 has E11.9, I10 and
the direct-CC2 code E08; R2 has E11.9 only. -/
def fixDf : DiagDF :=
  { rows := [⟨"R1", "E11.9", 10, ⟨2020, 3, 1⟩⟩,
             ⟨"R1", "I10", 10, ⟨2020, 4, 1⟩⟩,
             ⟨"R1", "E08", 10, ⟨2020, 5, 1⟩⟩,
             ⟨"R2", "E11.9", 10, ⟨2020, 1, 1⟩⟩] }

/-- Input frame for the mutation check: one record, no `year` column. -/
def mutDf : DiagDF := { rows := [⟨"R1", "E11.9", 10, ⟨2020, 3, 1⟩⟩] }

/-- A unioned crosswalk in which the key `("A1", 2020, 10)` maps to two
different cc ids, 1 and 2. -/
def dupXwalk : List XwalkRow :=
  [⟨"A1", 2020, 10, 1⟩, ⟨"A1", 2020, 10, 2⟩]

/-- Input frame with a single record carrying the conflicting code. -/
def dupDf : DiagDF := { rows := [⟨"R1", "A1", 10, ⟨2020, 1, 1⟩⟩] }

/-- Input frame for the empty-label-table check. -/
def degDf : DiagDF := { rows := [⟨"R1", "A1", 10, ⟨2020, 1, 1⟩⟩] }

/-- Matrix for the order-sensitivity exhibit: one recipient with CC1,
CC2 and CC3 all present. -/
def ordM : CCMatrix :=
  { cols := [1, 2, 3], rows := [("A", [some true, some true, some true])] }

/-- The matrix `ordM` after the rule (to_zero = 2, cc = 1) has fired. -/
def ordM1 : CCMatrix :=
  { cols := [1, 2, 3], rows := [("A", [some true, some false, some true])] }

/-! ## The Hierarchy Rule Extractor (`extract_hierachy_rules`) -/

/-- The three supported scheme versions (`cc_version` from the file
path). -/
inductive CCVer
  | v12
  | v21
  | v22
deriving DecidableEq

/-- One exploded rule row of `<version>_rules.csv` as the extractor
produces it: raw captured strings (`to_zero` is one entry of the
comma-split suppression list, `cc` the trigger capture). -/
structure SRule where
  to_zero : String
  cc : String
deriving DecidableEq

/-- Whether `pat` occurs at the very start of `cs`. -/
def prefixAt : List Char → List Char → Bool
  | [], _ => true
  | _ :: _, [] => false
  | p :: ps, c :: cs => p == c && prefixAt ps cs

/-- The text after the first occurrence of `pat` (the second part of
`str.split(pat, 1)`); `none` when `pat` does not occur — in the pandas
pipeline such a row gets a null `logic` column. -/
def dropAfterFirst (pat : List Char) : List Char → Option (List Char)
  | [] => if prefixAt pat [] then some [] else none
  | c :: cs =>
    if prefixAt pat (c :: cs) then some ((c :: cs).drop pat.length)
    else dropAfterFirst pat cs

/-- The capture of `<?[0-9]*` at the start of `cs`: an optional `<`,
then a maximal digit run; the capture may be empty. -/
def ltDigits : List Char → List Char
  | '<' :: cs => '<' :: cs.takeWhile Char.isDigit
  | cs => cs.takeWhile Char.isDigit

/-- Take one to three leading digits (the greedy `[\d]{1,3}`); `none`
when the first character is not a digit. -/
def digits3 : List Char → Option (List Char × List Char)
  | [] => none
  | c :: cs =>
    if c.isDigit then
      match cs with
      | c2 :: cs2 =>
        if c2.isDigit then
          match cs2 with
          | c3 :: cs3 =>
            if c3.isDigit then some ([c, c2, c3], cs3)
            else some ([c, c2], cs2)
          | [] => some ([c, c2], [])
        else some ([c], cs)
      | [] => some ([c], [])
    else none

/-- Take one optional whitespace character (`\s?`). -/
def takeOneWs : List Char → List Char × List Char
  | [] => ([], [])
  | c :: cs => if c.isWhitespace then ([c], cs) else ([], c :: cs)

/-- One iteration of the suppression-list continuation: `,\s?[\d]{1,3}`
for v12, `\s?,\s?[\d]{1,3}` for v21/v22 (`wsBefore = true`).  Returns
the captured chunk and the rest, or `none` when the iteration does not
match at this position. -/
def listIter (wsBefore : Bool) (cs : List Char) :
    Option (List Char × List Char) :=
  let w1r1 := if wsBefore then takeOneWs cs else ([], cs)
  match w1r1.2 with
  | ',' :: r2 =>
    let w2r3 := takeOneWs r2
    match digits3 w2r3.2 with
    | some (ds, r4) => some (w1r1.1 ++ [','] ++ w2r3.1 ++ ds, r4)
    | none => none
  | _ => none

/-- The greedy Kleene star over `listIter`, with fuel (each successful
iteration consumes at least two characters, so `cs.length` fuel always
suffices). -/
def listStar (wsBefore : Bool) : Nat → List Char → List Char
  | 0, _ => []
  | fuel + 1, cs =>
    match listIter wsBefore cs with
    | none => []
    | some (chunk, rest) => chunk ++ listStar wsBefore fuel rest

/-- The leftmost match of the suppression-list pattern: a position
preceded by `marker` (the zero-width lookbehind) where at least one
digit follows; the capture is the 1–3 digit run and its comma-separated
continuation. -/
def zerosScan (marker : List Char) (wsBefore : Bool) :
    List Char → Option (List Char)
  | [] => none
  | c :: cs =>
    if prefixAt marker (c :: cs) then
      match digits3 ((c :: cs).drop marker.length) with
      | some (ds, rest) =>
        some (ds ++ listStar wsBefore rest.length rest)
      | none => zerosScan marker wsBefore cs
    else zerosScan marker wsBefore cs

/-- The version-specific anchor token of `str.split(..., 1)` (lines 78
and 90): `if h` for v12, `%SET0(` for v21/v22. -/
def anchorOf : CCVer → List Char
  | .v12 => "if h".toList
  | .v21 => "%SET0(".toList
  | .v22 => "%SET0(".toList

/-- The version-specific trigger marker (lines 82 and 94): `cc` for
v12, `CC=` for v21/v22. -/
def condMarker : CCVer → List Char
  | .v12 => "cc".toList
  | .v21 => "CC=".toList
  | .v22 => "CC=".toList

/-- The version-specific lookbehind of the suppression-list pattern
(lines 85 and 97): `i=` for v12, `%STR(` for v21/v22. -/
def zerosMarker : CCVer → List Char
  | .v12 => "i=".toList
  | .v21 => "%STR(".toList
  | .v22 => "%STR(".toList

/-- Whether the continuation allows whitespace before the comma (the
v21/v22 pattern has `\s?,\s?`, the v12 pattern only `,\s?`). -/
def zerosWsBefore : CCVer → Bool
  | .v12 => false
  | .v21 => true
  | .v22 => true

/-- The `logic` column of one line: the part after the version anchor;
`none` (NaN) when the anchor does not occur. -/
def lineLogic (v : CCVer) (line : String) : Option (List Char) :=
  dropAfterFirst (anchorOf v) line.toList

/-- The `condition` column: `str.extract('cc(<?[0-9]*)')` for v12,
`str.extract('CC=(<?[0-9]*)')` for v21/v22, applied to the logic
fragment; `none` (null) only when the marker does not occur at all —
the capture itself may be the empty string, which is NOT null. -/
def lineCond (v : CCVer) (line : String) : Option String :=
  (lineLogic v line).bind (fun l =>
    (dropAfterFirst (condMarker v) l).map (fun rest => ⟨ltDigits rest⟩))

/-- The `zeros` column: the lookbehind digit-list extraction
(`(?<=i=)([\d]{1,3}(,\s?[\d]{1,3})*)` for v12,
`(?<=%STR\()([\d]{1,3}(\s?,\s?[\d]{1,3})*)` for v21/v22). -/
def lineZeros (v : CCVer) (line : String) : Option String :=
  (lineLogic v line).bind (fun l =>
    (zerosScan (zerosMarker v) (zerosWsBefore v) l).map
      (fun z => ⟨z⟩))

/-- Python `str.split(',')`: split on every comma, keeping surrounding
whitespace and empty segments. -/
def splitCommas : List Char → List (List Char)
  | [] => [[]]
  | c :: cs =>
    if c == ',' then [] :: splitCommas cs
    else
      match splitCommas cs with
      | s :: ss => (c :: s) :: ss
      | [] => [[c]]

/-- Lines 102–106: a line is kept iff both its `condition` and `zeros`
columns are non-null; a kept line is exploded into one rule row per
comma-separated entry of `zeros`, each paired with the trigger capture:
output row = (to_zero, cc). -/
def lineRules (v : CCVer) (line : String) : List SRule :=
  match lineCond v line, lineZeros v line with
  | some cond, some zs =>
    (splitCommas zs.toList).map (fun z => ⟨⟨z⟩, cond⟩)
  | _, _ => []

/-- The Hierarchy Rule Extractor for one version file: the rule rows of
all lines, in source order. -/
def extract_hierachy_rules (v : CCVer) (lines : List String) : List SRule :=
  lines.flatMap (lineRules v)

/-! ## The Crosswalk Formatter (`format_crosswaks`) -/

/-- One row of a formatted crosswalk CSV as the Formatter writes it
(columns `icd`, `cc`, `version`, `year`; pandas aligns the differing
column orders of the parsed frame and `df_extra` by name). -/
structure CwRow where
  year : Int
  icd : String
  version : Nat
  cc : Nat
deriving DecidableEq

/-- One raw mapping file, already tokenized: the year and scheme
version from its path, and the (icd, cc) token pairs of its lines. -/
structure RawMapFile where
  year : Int
  cc_version : String
  rows : List (String × Nat)
deriving DecidableEq

/-- The supplemental entries of the `if cc_version == ...` branches
(lines 192–220): v12 rebinds `df_extra` for every year; v21 and v22
only for years ≤ 2015; any other combination leaves `df_extra`
untouched. -/
def extrasFor (cc_version : String) (year : Int) : Option (List CwRow) :=
  if cc_version = "v12" then
    some [⟨year, "40403", 9, 80⟩, ⟨year, "40413", 9, 80⟩,
          ⟨year, "40493", 9, 80⟩]
  else if cc_version = "v21" ∧ year ≤ 2015 then
    some [⟨year, "3572", 9, 18⟩, ⟨year, "36202", 9, 18⟩,
          ⟨year, "40401", 9, 85⟩, ⟨year, "40403", 9, 85⟩,
          ⟨year, "40411", 9, 85⟩, ⟨year, "40413", 9, 85⟩,
          ⟨year, "40491", 9, 85⟩, ⟨year, "40493", 9, 85⟩]
  else if cc_version = "v22" ∧ year ≤ 2015 then
    some [⟨year, "36202", 9, 18⟩, ⟨year, "40403", 9, 85⟩,
          ⟨year, "40413", 9, 85⟩, ⟨year, "40493", 9, 85⟩]
  else
    none

/-- One iteration of the ICD-9 loop: parse the file's rows, rebind
`df_extra` if this version/year combination has a branch, then
unconditionally append the current `df_extra` (line 222).  `st` is the
value `df_extra` holds from earlier iterations (`none` = never
assigned, in which case line 222 raises a `NameError`). -/
def processIcd9 (st : Option (List CwRow)) (f : RawMapFile) :
    Except String (List CwRow × Option (List CwRow)) :=
  let base := f.rows.map (fun p => (⟨f.year, p.1, 9, p.2⟩ : CwRow))
  let st' := match extrasFor f.cc_version f.year with
             | some e => some e
             | none => st
  match st' with
  | none => .error "NameError: name df_extra is not defined"
  | some e => .ok (base ++ e, some e)

/-- The ICD-9 loop of `format_crosswaks` over a file list, threading the
`df_extra` variable; returns the per-file output tables. -/
def formatIcd9Go :
    Option (List CwRow) → List RawMapFile →
      Except String (List (List CwRow))
  | _, [] => .ok []
  | st, f :: fs =>
    match processIcd9 st f with
    | .error e => .error e
    | .ok (out, st') =>
      match formatIcd9Go st' fs with
      | .error e => .error e
      | .ok outs => .ok (out :: outs)

/-- `format_crosswaks` on its ICD-9 file list; the `df_extra` variable
is unbound when the loop starts. -/
def format_crosswaks_icd9 (files : List RawMapFile) :
    Except String (List (List CwRow)) :=
  formatIcd9Go none files

/-- `format_crosswaks` on its ICD-10 file list (lines 229–237): no
supplemental injection of any kind. -/
def format_crosswaks_icd10 (files : List RawMapFile) :
    List (List CwRow) :=
  files.map (fun f =>
    f.rows.map (fun p => (⟨f.year, p.1, 10, p.2⟩ : CwRow)))

/-! ## Composing the Formatter with the Resolver -/

/-- The column labels of every crosswalk CSV as `format_crosswaks`
writes them and `pd.read_csv` hands them back to the Resolver: lines
181–189 and 232–236 assign `icd`, `cc`, `version`, `year` and drop the
raw column 0 (the `df_extra` frames align to the same labels by name).
There is no `diag_code` column. -/
def crosswalkCsvColumns : List String := ["icd", "cc", "version", "year"]

/-- The keys of line 39's merge, `on=['diag_code', 'year', 'version']`. -/
def mergeOnKeys : List String := ["diag_code", "year", "version"]

/-- A pandas merge looks each `on` key up by name in both frames and
raises `KeyError` on the first key missing from a frame, before any row
is joined: this is the first of line 39's keys missing from a right
frame with column labels `cols` (`none` when the merge can proceed). -/
def missingMergeKey (cols : List String) : Option String :=
  mergeOnKeys.find? (fun k => !(cols.contains k))

/-- The end-to-end scenario's crosswalk as the Crosswalk Formatter
receives it: one ICD-10 file with the fixture's three mappings
(including the direct CC2 mapping for R1's code E08). -/
def fixXwalkFile : RawMapFile :=
  ⟨2020, "v22", [("E11.9", 1), ("I10", 3), ("E08", 2)]⟩

end RiskAdjustment

namespace RiskAdjustment

/-! ## List helper lemmas -/

theorem findIdx?_bound_go {α : Type} {p : α → Bool} :
    ∀ {l : List α} {s i : Nat}, List.findIdx? p l s = some i →
      i < s + l.length := by
  intro l
  induction l with
  | nil => intro s i h; simp [List.findIdx?] at h
  | cons a as ih =>
    intro s i h
    rw [List.findIdx?_cons] at h
    by_cases hp : p a
    · rw [if_pos hp] at h
      cases h
      simp
    · rw [if_neg hp] at h
      have := ih h
      simp only [List.length_cons]
      omega

theorem findIdx?_bound {α : Type} {p : α → Bool} {l : List α} {i : Nat}
    (h : l.findIdx? p = some i) : i < l.length := by
  have := findIdx?_bound_go h
  omega

theorem findIdx?_append_left {α : Type} {p : α → Bool} {l t : List α}
    {j : Nat} (h : l.findIdx? p = some j) : (l ++ t).findIdx? p = some j := by
  rw [List.findIdx?_append, h]
  rfl

theorem findIdx?_isSome_of_mem {l : List Nat} {c : Nat} (h : c ∈ l) :
    (l.findIdx? (fun c' => c' == c)).isSome := by
  cases hf : l.findIdx? (fun c' => c' == c) with
  | some j => rfl
  | none =>
    rw [List.findIdx?_eq_none_iff] at hf
    have := hf c h
    simp at this

theorem set_getElem?_self {α : Type} {l : List α} {i : Nat} {a : α}
    (h : l[i]? = some a) : l.set i a = l := by
  have hlen : i < l.length := by
    by_contra hc
    rw [List.getElem?_eq_none (by omega)] at h
    exact Option.noConfusion h
  apply List.ext_getElem?
  intro n
  rw [List.getElem?_set]
  by_cases hin : i = n
  · subst hin
    rw [if_pos rfl, if_pos hlen, h]
  · rw [if_neg hin]

theorem getElem?_lt_length {α : Type} {l : List α} {i : Nat} {a : α}
    (h : l[i]? = some a) : i < l.length := by
  by_contra hc
  rw [List.getElem?_eq_none (by omega)] at h
  exact Option.noConfusion h

/-! ## Cell accessors -/

theorem cellVal_eq_of {m : CCMatrix} {i c j : Nat}
    {p : String × List (Option Bool)}
    (hj : m.cols.findIdx? (fun c' => c' == c) = some j)
    (hp : m.rows[i]? = some p) : cellVal m i c = p.2.getD j none := by
  unfold cellVal
  rw [hj, hp]

theorem cellVal_none_col {m : CCMatrix} {i c : Nat}
    (hj : m.cols.findIdx? (fun c' => c' == c) = none) :
    cellVal m i c = none := by
  unfold cellVal
  rw [hj]

theorem cellVal_none_row {m : CCMatrix} {i c : Nat}
    (hp : m.rows[i]? = none) : cellVal m i c = none := by
  unfold cellVal
  rw [hp]
  cases m.cols.findIdx? (fun c' => c' == c) <;> rfl

theorem updRow_fst {it iz : Nat} {p : String × List (Option Bool)} :
    (updRow it iz p).1 = p.1 := by
  unfold updRow
  by_cases htr : triggeredAt p.2 it
  · rw [if_pos htr]
  · rw [if_neg htr]

theorem updRow_snd {it iz : Nat} {p : String × List (Option Bool)} :
    (updRow it iz p).2 =
      if triggeredAt p.2 it then p.2.set iz (some false) else p.2 := by
  unfold updRow
  by_cases htr : triggeredAt p.2 it
  · rw [if_pos htr, if_pos htr]
  · rw [if_neg htr, if_neg htr]

theorem extRow_snd {it : Nat} {p : String × List (Option Bool)} :
    (extRow it p).2 =
      p.2 ++ [if triggeredAt p.2 it then some false else none] := rfl

theorem setCase_cols {m : CCMatrix} {it iz : Nat} :
    (setCase m it iz).cols = m.cols := rfl

theorem extendCase_cols {m : CCMatrix} {it z : Nat} :
    (extendCase m it z).cols = m.cols ++ [z] := rfl

theorem setCase_rows_getElem {m : CCMatrix} {it iz i : Nat} :
    (setCase m it iz).rows[i]? = m.rows[i]?.map (updRow it iz) := by
  unfold setCase
  exact List.getElem?_map _ _ _

theorem extendCase_rows_getElem {m : CCMatrix} {it z i : Nat} :
    (extendCase m it z).rows[i]? = m.rows[i]?.map (extRow it) := by
  unfold extendCase
  exact List.getElem?_map _ _ _

theorem triggeredAt_eq_cellVal {m : CCMatrix} {i cc it : Nat}
    {p : String × List (Option Bool)}
    (hit : m.cols.findIdx? (fun c' => c' == cc) = some it)
    (hp : m.rows[i]? = some p) :
    triggeredAt p.2 it = cellIsTrue m i cc := by
  unfold cellIsTrue triggeredAt
  rw [cellVal_eq_of hit hp]

/-! ## One rule application: case lemmas -/

theorem setCase_aligned {m : CCMatrix} {it iz : Nat} (hA : Aligned m) :
    Aligned (setCase m it iz) := by
  intro p hp
  simp only [setCase, List.mem_map] at hp
  obtain ⟨q, hq, hfq⟩ := hp
  subst hfq
  rw [setCase_cols, updRow_snd]
  by_cases htr : triggeredAt q.2 it
  · rw [if_pos htr, List.length_set]
    exact hA q hq
  · rw [if_neg htr]
    exact hA q hq

theorem extendCase_aligned {m : CCMatrix} {it z : Nat} (hA : Aligned m) :
    Aligned (extendCase m it z) := by
  intro p hp
  simp only [extendCase, List.mem_map] at hp
  obtain ⟨q, hq, hfq⟩ := hp
  subst hfq
  rw [extendCase_cols, extRow_snd, List.length_append, List.length_append,
    hA q hq]
  by_cases htr : triggeredAt q.2 it
  · rw [if_pos htr, List.length_singleton, List.length_singleton]
  · rw [if_neg htr, List.length_singleton, List.length_singleton]

theorem setCase_true_mono {m : CCMatrix} {it iz i c : Nat}
    (h : cellVal (setCase m it iz) i c = some true) :
    cellVal m i c = some true := by
  cases hj : m.cols.findIdx? (fun c' => c' == c) with
  | none =>
    rw [cellVal_none_col (m := setCase m it iz) hj] at h
    exact Option.noConfusion h
  | some j =>
    cases hp : m.rows[i]? with
    | none =>
      have hrow : (setCase m it iz).rows[i]? = none := by
        rw [setCase_rows_getElem, hp]; rfl
      rw [cellVal_none_row hrow] at h
      exact Option.noConfusion h
    | some p =>
      have hrow : (setCase m it iz).rows[i]? = some (updRow it iz p) := by
        rw [setCase_rows_getElem, hp]; rfl
      rw [cellVal_eq_of (m := setCase m it iz) hj hrow, updRow_snd] at h
      rw [cellVal_eq_of hj hp]
      by_cases htr : triggeredAt p.2 it
      · rw [if_pos htr, List.getD_eq_getElem?_getD, List.getElem?_set] at h
        by_cases hij : iz = j
        · rw [if_pos hij] at h
          by_cases hlen : iz < p.2.length
          · rw [if_pos hlen] at h
            simp at h
          · rw [if_neg hlen] at h
            simp at h
        · rw [if_neg hij] at h
          rw [List.getD_eq_getElem?_getD]
          exact h
      · rw [if_neg htr] at h
        exact h

theorem extendCase_true_mono {m : CCMatrix} {it z i c : Nat}
    (hA : Aligned m)
    (h : cellVal (extendCase m it z) i c = some true) :
    cellVal m i c = some true := by
  cases hp : m.rows[i]? with
  | none =>
    have hrow : (extendCase m it z).rows[i]? = none := by
      rw [extendCase_rows_getElem, hp]; rfl
    rw [cellVal_none_row hrow] at h
    exact Option.noConfusion h
  | some p =>
    have hrow : (extendCase m it z).rows[i]? = some (extRow it p) := by
      rw [extendCase_rows_getElem, hp]; rfl
    have hplen : p.2.length = m.cols.length := hA p (List.getElem?_mem hp)
    cases hj : m.cols.findIdx? (fun c' => c' == c) with
    | some j =>
      have hj' : (extendCase m it z).cols.findIdx? (fun c' => c' == c) =
          some j := by
        rw [extendCase_cols]
        exact findIdx?_append_left hj
      rw [cellVal_eq_of hj' hrow, extRow_snd] at h
      rw [cellVal_eq_of hj hp]
      have hjlen : j < p.2.length := by
        rw [hplen]
        exact findIdx?_bound hj
      rw [List.getD_eq_getElem?_getD, List.getElem?_append, if_pos hjlen] at h
      rw [List.getD_eq_getElem?_getD]
      exact h
    | none =>
      exfalso
      by_cases hzc : (z == c)
      · have hj' : (extendCase m it z).cols.findIdx? (fun c' => c' == c) =
            some m.cols.length := by
          rw [extendCase_cols, List.findIdx?_append, hj, Option.none_or,
            List.findIdx?_cons, if_pos hzc]
          simp
        rw [cellVal_eq_of hj' hrow, extRow_snd,
          List.getD_eq_getElem?_getD,
          List.getElem?_append_right (le_of_eq hplen)] at h
        have hzero : m.cols.length - p.2.length = 0 := by
          rw [hplen]
          omega
        rw [hzero] at h
        by_cases htr : triggeredAt p.2 it
        · rw [if_pos htr] at h
          simp at h
        · rw [if_neg htr] at h
          simp at h
      · have hj' : (extendCase m it z).cols.findIdx? (fun c' => c' == c) =
            none := by
          rw [extendCase_cols, List.findIdx?_append, hj, Option.none_or,
            List.findIdx?_cons, if_neg hzc]
          rfl
        rw [cellVal_none_col hj'] at h
        exact Option.noConfusion h

theorem setCase_false_stable {m : CCMatrix} {it iz i c : Nat}
    (h : cellVal m i c = some false) :
    cellVal (setCase m it iz) i c = some false := by
  cases hj : m.cols.findIdx? (fun c' => c' == c) with
  | none =>
    rw [cellVal_none_col hj] at h
    exact Option.noConfusion h
  | some j =>
    cases hp : m.rows[i]? with
    | none =>
      rw [cellVal_none_row hp] at h
      exact Option.noConfusion h
    | some p =>
      have hrow : (setCase m it iz).rows[i]? = some (updRow it iz p) := by
        rw [setCase_rows_getElem, hp]; rfl
      rw [cellVal_eq_of hj hp] at h
      rw [cellVal_eq_of (m := setCase m it iz) hj hrow, updRow_snd]
      by_cases htr : triggeredAt p.2 it
      · rw [if_pos htr, List.getD_eq_getElem?_getD, List.getElem?_set]
        by_cases hij : iz = j
        · subst hij
          have hlen : iz < p.2.length := by
            rw [List.getD_eq_getElem?_getD] at h
            cases hq : p.2[iz]? with
            | none => rw [hq] at h; exact absurd h (by simp)
            | some v => exact getElem?_lt_length hq
          rw [if_pos rfl, if_pos hlen]
          rfl
        · rw [if_neg hij, ← List.getD_eq_getElem?_getD]
          exact h
      · rw [if_neg htr]
        exact h

theorem extendCase_false_stable {m : CCMatrix} {it z i c : Nat}
    (h : cellVal m i c = some false) :
    cellVal (extendCase m it z) i c = some false := by
  cases hj : m.cols.findIdx? (fun c' => c' == c) with
  | none =>
    rw [cellVal_none_col hj] at h
    exact Option.noConfusion h
  | some j =>
    cases hp : m.rows[i]? with
    | none =>
      rw [cellVal_none_row hp] at h
      exact Option.noConfusion h
    | some p =>
      have hrow : (extendCase m it z).rows[i]? = some (extRow it p) := by
        rw [extendCase_rows_getElem, hp]; rfl
      have hj' : (extendCase m it z).cols.findIdx? (fun c' => c' == c) =
          some j := by
        rw [extendCase_cols]
        exact findIdx?_append_left hj
      rw [cellVal_eq_of hj hp] at h
      rw [cellVal_eq_of hj' hrow, extRow_snd]
      have hjlen : j < p.2.length := by
        rw [List.getD_eq_getElem?_getD] at h
        cases hq : p.2[j]? with
        | none => rw [hq] at h; exact absurd h (by simp)
        | some v => exact getElem?_lt_length hq
      rw [List.getD_eq_getElem?_getD, List.getElem?_append, if_pos hjlen,
        ← List.getD_eq_getElem?_getD]
      exact h

theorem cellIsTrue_iff {m : CCMatrix} {i c : Nat} :
    cellIsTrue m i c = true ↔ cellVal m i c = some true := by
  unfold cellIsTrue
  exact beq_iff_eq

theorem cellVal_false_not_true {m : CCMatrix} {i c : Nat}
    (h : cellVal m i c = some false) : cellIsTrue m i c = false := by
  unfold cellIsTrue
  rw [h]
  rfl

theorem setCase_fires {m : CCMatrix} {r : Rule} {it iz i : Nat}
    (hA : Aligned m)
    (hit : m.cols.findIdx? (fun c => c == r.cc) = some it)
    (hiz : m.cols.findIdx? (fun c => c == r.to_zero) = some iz)
    (ht : cellIsTrue m i r.cc = true) :
    cellVal (setCase m it iz) i r.to_zero = some false := by
  cases hp : m.rows[i]? with
  | none =>
    exfalso
    rw [cellIsTrue_iff, cellVal_none_row hp] at ht
    exact Option.noConfusion ht
  | some p =>
    have htr : triggeredAt p.2 it = true := by
      rw [triggeredAt_eq_cellVal hit hp]
      exact ht
    have hrow : (setCase m it iz).rows[i]? = some (updRow it iz p) := by
      rw [setCase_rows_getElem, hp]; rfl
    rw [cellVal_eq_of (m := setCase m it iz) hiz hrow, updRow_snd,
      if_pos htr]
    have hlen : iz < p.2.length := by
      rw [hA p (List.getElem?_mem hp)]
      exact findIdx?_bound hiz
    rw [List.getD_eq_getElem?_getD, List.getElem?_set, if_pos rfl,
      if_pos hlen]
    rfl

theorem extendCase_fires {m : CCMatrix} {r : Rule} {it i : Nat}
    (hA : Aligned m)
    (hit : m.cols.findIdx? (fun c => c == r.cc) = some it)
    (hiz : m.cols.findIdx? (fun c => c == r.to_zero) = none)
    (ht : cellIsTrue m i r.cc = true) :
    cellVal (extendCase m it r.to_zero) i r.to_zero = some false := by
  cases hp : m.rows[i]? with
  | none =>
    exfalso
    rw [cellIsTrue_iff, cellVal_none_row hp] at ht
    exact Option.noConfusion ht
  | some p =>
    have htr : triggeredAt p.2 it = true := by
      rw [triggeredAt_eq_cellVal hit hp]
      exact ht
    have hrow : (extendCase m it r.to_zero).rows[i]? = some (extRow it p) := by
      rw [extendCase_rows_getElem, hp]; rfl
    have hplen : p.2.length = m.cols.length := hA p (List.getElem?_mem hp)
    have hj' : (extendCase m it r.to_zero).cols.findIdx?
        (fun c => c == r.to_zero) = some m.cols.length := by
      rw [extendCase_cols, List.findIdx?_append, hiz, Option.none_or,
        List.findIdx?_cons, if_pos (by simp)]
      simp
    rw [cellVal_eq_of hj' hrow, extRow_snd, if_pos htr,
      List.getD_eq_getElem?_getD,
      List.getElem?_append_right (le_of_eq hplen)]
    have hzero : m.cols.length - p.2.length = 0 := by
      rw [hplen]
      omega
    rw [hzero]
    rfl

theorem setCase_noop {m : CCMatrix} {r : Rule} {it iz : Nat}
    (hit : m.cols.findIdx? (fun c => c == r.cc) = some it)
    (hiz : m.cols.findIdx? (fun c => c == r.to_zero) = some iz)
    (hest : ∀ i, cellIsTrue m i r.cc = true →
      cellVal m i r.to_zero = some false) :
    setCase m it iz = m := by
  have hrows : m.rows.map (updRow it iz) = m.rows := by
    apply List.ext_getElem?
    intro n
    rw [List.getElem?_map]
    cases hp : m.rows[n]? with
    | none => rfl
    | some p =>
      show some (updRow it iz p) = some p
      congr 1
      unfold updRow
      by_cases htr : triggeredAt p.2 it
      · rw [if_pos htr]
        have ht : cellIsTrue m n r.cc = true := by
          rw [← triggeredAt_eq_cellVal hit hp]
          exact htr
        have hval := hest n ht
        rw [cellVal_eq_of hiz hp, List.getD_eq_getElem?_getD] at hval
        have hpz : p.2[iz]? = some (some false) := by
          cases hq : p.2[iz]? with
          | none =>
            rw [hq] at hval
            exact absurd hval (by simp)
          | some v =>
            rw [hq] at hval
            exact congrArg some hval
        rw [set_getElem?_self hpz]
      · rw [if_neg htr]
  unfold setCase
  rw [hrows]

/-! ## One rule application: `applyRule`-level lemmas -/

theorem applyRule_ok_elim {m : CCMatrix} {r : Rule} {m' : CCMatrix}
    (h : applyRule m r = .ok m') :
    ∃ it, m.cols.findIdx? (fun c => c == r.cc) = some it ∧
      ((∃ iz, m.cols.findIdx? (fun c => c == r.to_zero) = some iz ∧
          m' = setCase m it iz) ∨
        (m.cols.findIdx? (fun c => c == r.to_zero) = none ∧
          m' = extendCase m it r.to_zero)) := by
  unfold applyRule at h
  split at h
  · exact Except.noConfusion h
  · rename_i it hit
    split at h
    · rename_i iz hiz
      exact ⟨it, hit, Or.inl ⟨iz, hiz, (Except.ok.inj h).symm⟩⟩
    · rename_i hiz
      exact ⟨it, hit, Or.inr ⟨hiz, (Except.ok.inj h).symm⟩⟩

theorem applyRule_aligned {m : CCMatrix} {r : Rule} {m' : CCMatrix}
    (hA : Aligned m) (h : applyRule m r = .ok m') : Aligned m' := by
  obtain ⟨it, _, hcase⟩ := applyRule_ok_elim h
  rcases hcase with ⟨iz, _, rfl⟩ | ⟨_, rfl⟩
  · exact setCase_aligned hA
  · exact extendCase_aligned hA

theorem applyRule_cols_ext {m : CCMatrix} {r : Rule} {m' : CCMatrix}
    (h : applyRule m r = .ok m') : ∃ t, m'.cols = m.cols ++ t := by
  obtain ⟨it, _, hcase⟩ := applyRule_ok_elim h
  rcases hcase with ⟨iz, _, rfl⟩ | ⟨_, rfl⟩
  · exact ⟨[], by rw [setCase_cols, List.append_nil]⟩
  · exact ⟨[r.to_zero], rfl⟩

theorem applyRule_true_mono {m : CCMatrix} {r : Rule} {m' : CCMatrix}
    (hA : Aligned m) (h : applyRule m r = .ok m') {i c : Nat}
    (ht : cellVal m' i c = some true) : cellVal m i c = some true := by
  obtain ⟨it, _, hcase⟩ := applyRule_ok_elim h
  rcases hcase with ⟨iz, _, rfl⟩ | ⟨_, rfl⟩
  · exact setCase_true_mono ht
  · exact extendCase_true_mono hA ht

theorem applyRule_false_stable {m : CCMatrix} {r : Rule} {m' : CCMatrix}
    (h : applyRule m r = .ok m') {i c : Nat}
    (hf : cellVal m i c = some false) : cellVal m' i c = some false := by
  obtain ⟨it, _, hcase⟩ := applyRule_ok_elim h
  rcases hcase with ⟨iz, _, rfl⟩ | ⟨_, rfl⟩
  · exact setCase_false_stable hf
  · exact extendCase_false_stable hf

theorem applyRule_fires {m : CCMatrix} {r : Rule} {m' : CCMatrix}
    (hA : Aligned m) (h : applyRule m r = .ok m') {i : Nat}
    (ht : cellIsTrue m i r.cc = true) :
    cellVal m' i r.to_zero = some false := by
  obtain ⟨it, hit, hcase⟩ := applyRule_ok_elim h
  rcases hcase with ⟨iz, hiz, rfl⟩ | ⟨hiz, rfl⟩
  · exact setCase_fires hA hit hiz ht
  · exact extendCase_fires hA hit hiz ht

theorem applyRule_done {m : CCMatrix} {r : Rule} {m' : CCMatrix}
    (hA : Aligned m) (h : applyRule m r = .ok m') : RuleDone m' r := by
  obtain ⟨it, hit, hcase⟩ := applyRule_ok_elim h
  rcases hcase with ⟨iz, hiz, rfl⟩ | ⟨hiz, rfl⟩
  · refine ⟨?_, ?_, ?_⟩
    · rw [setCase_cols, hit]; rfl
    · rw [setCase_cols, hiz]; rfl
    · intro i hti
      have ht0 : cellIsTrue m i r.cc = true := by
        rw [cellIsTrue_iff] at hti ⊢
        exact setCase_true_mono hti
      exact setCase_fires hA hit hiz ht0
  · refine ⟨?_, ?_, ?_⟩
    · rw [extendCase_cols, findIdx?_append_left hit]; rfl
    · rw [extendCase_cols, List.findIdx?_append, hiz, Option.none_or,
        List.findIdx?_cons, if_pos (by simp)]
      rfl
    · intro i hti
      have ht0 : cellIsTrue m i r.cc = true := by
        rw [cellIsTrue_iff] at hti ⊢
        exact extendCase_true_mono hA hti
      exact extendCase_fires hA hit hiz ht0

theorem applyRule_noop {m : CCMatrix} {r : Rule}
    (hd : RuleDone m r) : applyRule m r = .ok m := by
  obtain ⟨hc, hz, hest⟩ := hd
  cases hit : m.cols.findIdx? (fun c => c == r.cc) with
  | none => rw [hit] at hc; exact absurd hc (by simp)
  | some it =>
    cases hiz : m.cols.findIdx? (fun c => c == r.to_zero) with
    | none => rw [hiz] at hz; exact absurd hz (by simp)
    | some iz =>
      unfold applyRule
      rw [hit, hiz]
      show Except.ok (setCase m it iz) = Except.ok m
      rw [setCase_noop hit hiz hest]

/-! ## The cascade: fold lemmas -/

theorem applyRules_nil_elim {m m' : CCMatrix}
    (h : applyRules m [] = .ok m') : m' = m :=
  (Except.ok.inj h).symm

theorem applyRules_cons_elim {m : CCMatrix} {r : Rule} {rs : List Rule}
    {m' : CCMatrix} (h : applyRules m (r :: rs) = .ok m') :
    ∃ m2, applyRule m r = .ok m2 ∧ applyRules m2 rs = .ok m' := by
  unfold applyRules at h
  split at h
  · exact Except.noConfusion h
  · rename_i m2 hm2
    exact ⟨m2, hm2, h⟩

theorem applyRules_aligned : ∀ {rs : List Rule} {m m' : CCMatrix},
    Aligned m → applyRules m rs = .ok m' → Aligned m' := by
  intro rs
  induction rs with
  | nil =>
    intro m m' hA h
    rw [applyRules_nil_elim h]
    exact hA
  | cons r rs ih =>
    intro m m' hA h
    obtain ⟨m2, h1, h2⟩ := applyRules_cons_elim h
    exact ih (applyRule_aligned hA h1) h2

theorem applyRules_cols_ext : ∀ {rs : List Rule} {m m' : CCMatrix},
    applyRules m rs = .ok m' → ∃ t, m'.cols = m.cols ++ t := by
  intro rs
  induction rs with
  | nil =>
    intro m m' h
    exact ⟨[], by rw [applyRules_nil_elim h, List.append_nil]⟩
  | cons r rs ih =>
    intro m m' h
    obtain ⟨m2, h1, h2⟩ := applyRules_cons_elim h
    obtain ⟨t1, ht1⟩ := applyRule_cols_ext h1
    obtain ⟨t2, ht2⟩ := ih h2
    exact ⟨t1 ++ t2, by rw [ht2, ht1, List.append_assoc]⟩

theorem applyRules_true_mono : ∀ {rs : List Rule} {m m' : CCMatrix},
    Aligned m → applyRules m rs = .ok m' → ∀ {i c : Nat},
      cellVal m' i c = some true → cellVal m i c = some true := by
  intro rs
  induction rs with
  | nil =>
    intro m m' _ h i c ht
    rw [applyRules_nil_elim h] at ht
    exact ht
  | cons r rs ih =>
    intro m m' hA h i c ht
    obtain ⟨m2, h1, h2⟩ := applyRules_cons_elim h
    exact applyRule_true_mono hA h1 (ih (applyRule_aligned hA h1) h2 ht)

theorem applyRules_false_stable : ∀ {rs : List Rule} {m m' : CCMatrix},
    applyRules m rs = .ok m' → ∀ {i c : Nat},
      cellVal m i c = some false → cellVal m' i c = some false := by
  intro rs
  induction rs with
  | nil =>
    intro m m' h i c hf
    rw [applyRules_nil_elim h]
    exact hf
  | cons r rs ih =>
    intro m m' h i c hf
    obtain ⟨m2, h1, h2⟩ := applyRules_cons_elim h
    exact ih h2 (applyRule_false_stable h1 hf)

theorem ruleDone_step {m m2 : CCMatrix} {r r' : Rule} (hA : Aligned m)
    (h : applyRule m r' = .ok m2) (hd : RuleDone m r) : RuleDone m2 r := by
  obtain ⟨hc, hz, hest⟩ := hd
  obtain ⟨t, hcols⟩ := applyRule_cols_ext h
  refine ⟨?_, ?_, ?_⟩
  · cases hf : m.cols.findIdx? (fun c => c == r.cc) with
    | none => rw [hf] at hc; exact absurd hc (by simp)
    | some j => rw [hcols, findIdx?_append_left hf]; rfl
  · cases hf : m.cols.findIdx? (fun c => c == r.to_zero) with
    | none => rw [hf] at hz; exact absurd hz (by simp)
    | some j => rw [hcols, findIdx?_append_left hf]; rfl
  · intro i hti
    have ht0 : cellIsTrue m i r.cc = true := by
      rw [cellIsTrue_iff] at hti ⊢
      exact applyRule_true_mono hA h hti
    exact applyRule_false_stable h (hest i ht0)

theorem ruleDone_preserved : ∀ {rs : List Rule} {m m' : CCMatrix} {r : Rule},
    Aligned m → applyRules m rs = .ok m' → RuleDone m r →
      RuleDone m' r := by
  intro rs
  induction rs with
  | nil =>
    intro m m' r _ h hd
    rw [applyRules_nil_elim h]
    exact hd
  | cons r' rs ih =>
    intro m m' r hA h hd
    obtain ⟨m2, h1, h2⟩ := applyRules_cons_elim h
    exact ih (applyRule_aligned hA h1) h2 (ruleDone_step hA h1 hd)

theorem applyRules_all_done : ∀ {rs : List Rule} {m m' : CCMatrix},
    Aligned m → applyRules m rs = .ok m' → ∀ r ∈ rs, RuleDone m' r := by
  intro rs
  induction rs with
  | nil =>
    intro m m' _ _ r hr
    exact absurd hr (List.not_mem_nil r)
  | cons r' rs ih =>
    intro m m' hA h r hr
    obtain ⟨m2, h1, h2⟩ := applyRules_cons_elim h
    rcases List.mem_cons.mp hr with rfl | hr'
    · exact ruleDone_preserved (applyRule_aligned hA h1) h2
        (applyRule_done hA h1)
    · exact ih (applyRule_aligned hA h1) h2 r hr'

theorem applyRules_noop : ∀ {rs : List Rule} {m : CCMatrix},
    (∀ r ∈ rs, RuleDone m r) → applyRules m rs = .ok m := by
  intro rs
  induction rs with
  | nil => intro m _; rfl
  | cons r rs ih =>
    intro m hall
    have h1 : applyRule m r = .ok m :=
      applyRule_noop (hall r (List.mem_cons_self r rs))
    unfold applyRules
    rw [h1]
    show applyRules m rs = .ok m
    exact ih (fun r' hr' => hall r' (List.mem_cons_of_mem r hr'))

theorem applyRule_cols_stable {m : CCMatrix} {r : Rule} {m' : CCMatrix}
    (hz : r.to_zero ∈ m.cols) (h : applyRule m r = .ok m') :
    m'.cols = m.cols := by
  obtain ⟨it, hit, hcase⟩ := applyRule_ok_elim h
  rcases hcase with ⟨iz, hiz, rfl⟩ | ⟨hiz, rfl⟩
  · rfl
  · exfalso
    have := findIdx?_isSome_of_mem hz
    rw [hiz] at this
    exact absurd this (by simp)

theorem applyRules_cols_stable : ∀ {rs : List Rule} {m m' : CCMatrix},
    (∀ r ∈ rs, r.to_zero ∈ m.cols) → applyRules m rs = .ok m' →
      m'.cols = m.cols := by
  intro rs
  induction rs with
  | nil =>
    intro m m' _ h
    rw [applyRules_nil_elim h]
  | cons r rs ih =>
    intro m m' hall h
    obtain ⟨m2, h1, h2⟩ := applyRules_cons_elim h
    have hc2 : m2.cols = m.cols :=
      applyRule_cols_stable (hall r (List.mem_cons_self r rs)) h1
    have hrest : ∀ r' ∈ rs, r'.to_zero ∈ m2.cols := by
      intro r' hr'
      rw [hc2]
      exact hall r' (List.mem_cons_of_mem r hr')
    rw [ih hrest h2, hc2]

theorem buildMatrix_cols {pairs : List (String × Nat)} {labels : List Nat} :
    (buildMatrix pairs labels).cols = labels := rfl

theorem buildMatrix_aligned {pairs : List (String × Nat)}
    {labels : List Nat} : Aligned (buildMatrix pairs labels) := by
  intro p hp
  simp only [buildMatrix, List.mem_map] at hp
  obtain ⟨r, _, hfr⟩ := hp
  subst hfr
  simp [buildMatrix]

theorem generate_hccs_ok_elim {cws : List (List XwalkRow)}
    {hier : List Rule} {labels : List Nat} {df df' : DiagDF} {m : CCMatrix}
    (h : generate_hccs cws hier labels df = .ok (df', m)) :
    applyRules (buildMatrix (mergedPairs (withYear df).rows cws.flatten)
      labels) hier = .ok m := by
  unfold generate_hccs at h
  split at h
  · exact Except.noConfusion h
  · split at h
    · exact Except.noConfusion h
    · rename_i m2 hm2
      have hpair := Except.ok.inj h
      rw [Prod.mk.injEq] at hpair
      rw [← hpair.2]
      exact hm2

/-! ## Claim theorems: the hierarchy cascade -/

/-- C1: the cascade applies the rule rows sequentially in stored order
(first conjunct); a rule sets the suppressed column to `False` on every
row whose trigger is currently true (second conjunct); the suppressed
column then stays false through all later rules, so a later rule never
sees a trigger an earlier rule suppressed (third conjunct); and the
result genuinely depends on the stored rule order (fourth conjunct: on
`ordM`, swapping the two rules changes the output). -/
theorem cascade_sequential_order (m : CCMatrix) (r : Rule) (rs : List Rule)
    (m₁ m₂ : CCMatrix) (i : Nat) (hA : Aligned m)
    (h1 : applyRule m r = .ok m₁) (h2 : applyRules m₁ rs = .ok m₂)
    (ht : cellIsTrue m i r.cc = true) :
    applyRules m (r :: rs) = .ok m₂ ∧
    cellVal m₁ i r.to_zero = some false ∧
    cellIsTrue m₂ i r.to_zero = false ∧
    applyRules ordM [⟨2, 1⟩, ⟨3, 2⟩] ≠ applyRules ordM [⟨3, 2⟩, ⟨2, 1⟩] := by
  have hfire : cellVal m₁ i r.to_zero = some false := applyRule_fires hA h1 ht
  refine ⟨?_, hfire, ?_, ?_⟩
  · unfold applyRules
    rw [h1]
    exact h2
  · exact cellVal_false_not_true (applyRules_false_stable h2 hfire)
  · decide

/-- Witness for `cascade_sequential_order` on the concrete matrix `ordM`
with the rule list [(to_zero = 2, cc = 1), (to_zero = 3, cc = 2)]. -/
theorem cascade_sequential_order_witness :
    applyRules ordM [⟨2, 1⟩, ⟨3, 2⟩] = .ok ordM1 ∧
    cellVal ordM1 0 2 = some false ∧
    cellIsTrue ordM1 0 2 = false ∧
    applyRules ordM [⟨2, 1⟩, ⟨3, 2⟩] ≠ applyRules ordM [⟨3, 2⟩, ⟨2, 1⟩] :=
  cascade_sequential_order ordM ⟨2, 1⟩ [⟨3, 2⟩] ordM1 ordM1 0
    (by decide) (by rfl) (by rfl) (by rfl)

/-- C3: for any reference tables in which every hierarchy rule
suppresses a CC listed in the label table, every successful run of the
Resolver yields a matrix whose columns are exactly the label table's cc
ids — no extra, no missing — with every row positionally carrying
exactly those cells, including after the hierarchy cascade. -/
theorem column_universe (cws : List (List XwalkRow)) (hier : List Rule)
    (labels : List Nat) (df df' : DiagDF) (m : CCMatrix)
    (hz : ∀ r ∈ hier, r.to_zero ∈ labels)
    (h : generate_hccs cws hier labels df = .ok (df', m)) :
    m.cols = labels ∧ ∀ p ∈ m.rows, p.2.length = labels.length := by
  have hrun := generate_hccs_ok_elim h
  have hcols : m.cols = labels := applyRules_cols_stable hz hrun
  refine ⟨hcols, ?_⟩
  intro p hp
  have hal : Aligned m := applyRules_aligned buildMatrix_aligned hrun
  rw [← hcols]
  exact hal p hp

/-- Witness for `column_universe` on a one-record, one-label run. -/
theorem column_universe_witness :
    ({ cols := [1], rows := [("R1", [some false])] } : CCMatrix).cols =
      [1] :=
  (column_universe [[⟨"E11.9", 2020, 10, 1⟩]] [⟨1, 1⟩] [1] mutDf
    (withYear mutDf) { cols := [1], rows := [("R1", [some false])] }
    (by decide) (by rfl)).1

/-- C4: a cell that is false in the pre-cascade presence matrix (the
reindexed `buildMatrix` output) is still false after the full hierarchy
cascade — applying the rules never sets any cell to true. -/
theorem monotone_suppression (pairs : List (String × Nat))
    (labels : List Nat) (hier : List Rule) (m' : CCMatrix) (i c : Nat)
    (h : applyRules (buildMatrix pairs labels) hier = .ok m')
    (hf : cellIsTrue (buildMatrix pairs labels) i c = false) :
    cellIsTrue m' i c = false := by
  cases hb : cellIsTrue m' i c with
  | false => rfl
  | true =>
    rw [cellIsTrue_iff] at hb
    have hmono := applyRules_true_mono buildMatrix_aligned h hb
    rw [← cellIsTrue_iff] at hmono
    rw [hmono] at hf
    exact Bool.noConfusion hf

/-- Witness for `monotone_suppression` on a concrete one-recipient run
(CC 2 is false before the cascade and stays false). -/
theorem monotone_suppression_witness :
    cellIsTrue { cols := [1, 2], rows := [("A", [some true, some false])] }
      0 2 = false :=
  monotone_suppression [("A", 1)] [1, 2] [⟨2, 1⟩]
    { cols := [1, 2], rows := [("A", [some true, some false])] } 0 2
    (by rfl) (by rfl)

/-- C5: the ordered cascade is idempotent — re-applying the full rule
list to an already-cascaded matrix changes nothing. -/
theorem cascade_idempotent (m m' : CCMatrix) (rules : List Rule)
    (hA : Aligned m) (h : applyRules m rules = .ok m') :
    applyRules m' rules = .ok m' :=
  applyRules_noop (applyRules_all_done hA h)

/-- Witness for `cascade_idempotent` on the concrete matrix `ordM`. -/
theorem cascade_idempotent_witness :
    applyRules ordM1 [⟨2, 1⟩, ⟨3, 2⟩] = .ok ordM1 :=
  cascade_idempotent ordM ordM1 [⟨2, 1⟩, ⟨3, 2⟩] (by decide) (by rfl)

/-! ## Claim theorems: end-to-end, mutation, conflicts, degenerate input -/

/-- C2: the claimed fixture output is never produced when the Resolver
consumes the reference tables in the shape the extractors write them.
The Formatter writes the fixture crosswalk with the code column
labelled `icd` (second conjunct; the written column labels are
`crosswalkCsvColumns`), but line 39 merges
`on=['diag_code', 'year', 'version']` and a pandas merge raises
`KeyError` on the first key missing from the right frame — which is
`diag_code` (first conjunct) — so the composed pipeline crashes at the
merge and returns no matrix at all.  Only once the crosswalk is keyed
as `diag_code` (the shape the merge requires) does the Resolver return
exactly the claimed matrix R1 = {CC1 : true, CC2 : false, CC3 : true},
R2 = {CC1 : true, CC2 : false, CC3 : false} (third conjunct). -/
theorem end_to_end_fixture_shape_mismatch :
    missingMergeKey crosswalkCsvColumns = some "diag_code" ∧
    format_crosswaks_icd10 [fixXwalkFile] =
      [[⟨2020, "E11.9", 10, 1⟩, ⟨2020, "I10", 10, 3⟩,
        ⟨2020, "E08", 10, 2⟩]] ∧
    generate_hccs [fixXwalk] [⟨2, 1⟩] [1, 2, 3] fixDf =
      .ok ({ rows := fixDf.rows, yearCol := some [2020, 2020, 2020, 2020] },
           { cols := [1, 2, 3],
             rows := [("R1", [some true, some false, some true]),
                      ("R2", [some true, some false, some false])] }) := by
  exact ⟨rfl, rfl, rfl⟩

/-- C6: the claim says `generate_hccs` leaves the caller's diagnosis
DataFrame unchanged (in particular with no stored `year` column); in the
code, line 37 (`df['year'] = df['claim_date'].dt.year`) adds a `year`
column to the caller's frame in place, so after a successful call the
input frame carries a `year` column it did not have before. -/
theorem input_frame_gains_year_column :
    mutDf.yearCol = none ∧
    generate_hccs [[⟨"E11.9", 2020, 10, 1⟩]] [] [1] mutDf =
      .ok ({ rows := mutDf.rows, yearCol := some [2020] },
           { cols := [1], rows := [("R1", [some true])] }) := by
  exact ⟨rfl, rfl⟩

/-- C8 counterexample: with a crosswalk mapping the key
`("A1", 2020, 10)` to both cc 1 and cc 2, the Resolver surfaces no error:
the left merge yields one row per match (the lookup yields two cc ids)
and the recipient silently gets both CCs set true. -/
theorem conflicting_key_not_surfaced :
    matchesFor ⟨"R1", "A1", 10, ⟨2020, 1, 1⟩⟩ dupXwalk = [1, 2] ∧
    generate_hccs [dupXwalk] [] [1, 2] dupDf =
      .ok ({ rows := dupDf.rows, yearCol := some [2020] },
           { cols := [1, 2], rows := [("R1", [some true, some true])] }) := by
  exact ⟨rfl, rfl⟩

/-- C8 amended: the pipeline performs no consistency check — a
conflicting key silently sets every mapped CC true (see the
counterexample); under the stated invariant that no key maps to two
different cc ids, the crosswalk lookup performed for a diagnosis record
never yields more than one cc id. -/
theorem crosswalk_lookup_unique (df_map : List XwalkRow)
    (hkey : ∀ x ∈ df_map, ∀ y ∈ df_map, x.diag_code = y.diag_code →
      x.year = y.year → x.version = y.version → x.cc = y.cc)
    (r : DiagRow) (c₁ c₂ : Nat)
    (h₁ : c₁ ∈ matchesFor r df_map) (h₂ : c₂ ∈ matchesFor r df_map) :
    c₁ = c₂ := by
  simp only [matchesFor, List.mem_map, List.mem_filter, Bool.and_eq_true,
    beq_iff_eq] at h₁ h₂
  obtain ⟨x, ⟨hx, ⟨⟨hxd, hxy⟩, hxv⟩⟩, hxc⟩ := h₁
  obtain ⟨y, ⟨hy, ⟨⟨hyd, hyy⟩, hyv⟩⟩, hyc⟩ := h₂
  subst hxc hyc
  exact hkey x hx y hy (hxd.trans hyd.symm) (hxy.trans hyy.symm)
    (hxv.trans hyv.symm)

/-- Witness for `crosswalk_lookup_unique` at a concrete consistent
crosswalk and record. -/
theorem crosswalk_lookup_unique_witness : (1 : Nat) = 1 :=
  crosswalk_lookup_unique [⟨"A1", 2020, 10, 1⟩, ⟨"A1", 2021, 10, 2⟩]
    (by decide) ⟨"R1", "A1", 10, ⟨2020, 1, 1⟩⟩ 1 1 (by decide) (by decide)

/-- C9 counterexample: with an empty ConditionCategory table (and an
empty rule table), the Resolver does not fail — it returns a degenerate
matrix with zero CC columns (one row per mapped recipient, no cells). -/
theorem empty_label_table_not_fatal :
    generate_hccs [[⟨"A1", 2020, 10, 1⟩]] [] [] degDf =
      .ok ({ rows := degDf.rows, yearCol := some [2020] },
           { cols := [], rows := [("R1", [])] }) := by
  rfl

/-- C9 amended: if no crosswalk file matches the target version the
Resolver raises (`pd.concat` of an empty list); but an empty
ConditionCategory table alone does not make it fail — with an empty rule
table it returns a matrix with zero CC columns. -/
theorem no_crosswalk_raises_empty_labels_do_not :
    (∀ (df_hier : List Rule) (df_list : List Nat) (df : DiagDF),
        generate_hccs [] df_hier df_list df =
          .error "ValueError: no objects to concatenate") ∧
    generate_hccs [[⟨"A2", 2020, 10, 1⟩]] [] [] degDf =
      .ok ({ rows := degDf.rows, yearCol := some [2020] },
           { cols := [], rows := [] }) := by
  constructor
  · intro df_hier df_list df
    rfl
  · rfl

/-! ## Claim theorems: the Crosswalk Formatter -/

/-- C7: supplemental ICD-9 entries are injected by rebinding `df_extra`
in conditional branches and then appending it unconditionally (line
222).  First conjunct: an ICD-9 file whose version/year combination has
no branch (v21, year 2016) receives the STALE supplemental rows of the
previous file (v22, year 2015) instead of none.  Second conjunct: if
such a file comes first, the append raises a `NameError` (`df_extra`
unbound).  Third conjunct: ICD-10 files receive no injection. -/
theorem stale_supplemental_injection :
    format_crosswaks_icd9 [⟨2015, "v22", [("0010", 2)]⟩,
        ⟨2016, "v21", [("0020", 3)]⟩] =
      .ok [[⟨2015, "0010", 9, 2⟩, ⟨2015, "36202", 9, 18⟩,
            ⟨2015, "40403", 9, 85⟩, ⟨2015, "40413", 9, 85⟩,
            ⟨2015, "40493", 9, 85⟩],
           [⟨2016, "0020", 9, 3⟩, ⟨2015, "36202", 9, 18⟩,
            ⟨2015, "40403", 9, 85⟩, ⟨2015, "40413", 9, 85⟩,
            ⟨2015, "40493", 9, 85⟩]] ∧
    format_crosswaks_icd9 [⟨2016, "v21", [("0020", 3)]⟩] =
      .error "NameError: name df_extra is not defined" ∧
    format_crosswaks_icd10 [⟨2017, "v22", [("A000", 19)]⟩] =
      [[⟨2017, "A000", 10, 19⟩]] := by
  exact ⟨rfl, rfl, rfl⟩

/-! ## Claim theorems: the Hierarchy Rule Extractor -/

theorem splitCommas_ne_nil : ∀ cs : List Char, splitCommas cs ≠ [] := by
  intro cs
  induction cs with
  | nil => simp [splitCommas]
  | cons c cs ih =>
    unfold splitCommas
    by_cases hc : (c == ',')
    · rw [if_pos hc]
      simp
    · rw [if_neg hc]
      cases h : splitCommas cs with
      | nil => exact absurd h ih
      | cons s ss => simp

/-- C10 counterexample: on the v12 line `AAA if hcc X i=12,13` the
trigger extraction is EMPTY (the pattern `cc(<?[0-9]*)` matches at
`cc` with an empty capture, which is not null), yet the line is kept
and contributes two rules with an empty trigger id. -/
theorem empty_trigger_capture_kept :
    lineCond .v12 "AAA if hcc X i=12,13" = some "" ∧
    lineRules .v12 "AAA if hcc X i=12,13" = [⟨"12", ""⟩, ⟨"13", ""⟩] ∧
    extract_hierachy_rules .v12 ["AAA if hcc X i=12,13"] =
      [⟨"12", ""⟩, ⟨"13", ""⟩] := by
  exact ⟨rfl, rfl, rfl⟩

/-- C10 amended: a line contributes rule rows iff both the trigger
extraction and the suppression-list extraction MATCH (are non-null,
`df.condition.notnull() & df.zeros.notnull()`); the trigger capture may
be the empty string — `cc`/`CC=` followed by no digits — and such a
line is still kept, contributing rules whose trigger id is empty. -/
theorem line_kept_iff_both_extractions_match (v : CCVer) (line : String) :
    lineRules v line ≠ [] ↔
      (lineCond v line).isSome ∧ (lineZeros v line).isSome := by
  unfold lineRules
  cases hc : lineCond v line with
  | none => simp
  | some cond =>
    cases hz : lineZeros v line with
    | none => simp
    | some zs =>
      simp only [Option.isSome_some, and_self, iff_true]
      intro hmap
      rw [List.map_eq_nil_iff] at hmap
      exact splitCommas_ne_nil zs.toList hmap

end RiskAdjustment
